import Mathlib

/-!
Verification of the replication/lifecycle core of a PostgreSQL fleet manager.

This file shallowly embeds the relevant Go functions as pure Lean
definitions and proves the specified properties about them.  Engine
interactions (SQL queries, external tool invocations) are modelled as
oracles: the embedded function receives the outcome each interaction
would produce and we reason over all possible outcomes.  Fallible Go
functions returning `(value, error)` are modelled with `Except` /
`Option` results.
-/

/-- Errors are opaque values; we only ever propagate them. -/
abbrev PgError := String

namespace Slots

/-- A physical replication slot as listed by the engine
(`infrastructure.ReplicationSlot`): name and active flag. -/
structure ReplicationSlot where
  slotName : String
  active : Bool
deriving DecidableEq, Repr

/-- One engine call issued by the reconciler through the slot manager
(`infrastructure.Manager`): listing the slots, creating a slot by name,
or deleting an existing slot. -/
inductive SlotCall where
  | list
  | create (slotName : String)
  | delete (slot : ReplicationSlot)
deriving DecidableEq, Repr

/-- The slice of the Cluster object read by the slot reconciler:
whether `Spec.ReplicationSlots.HighAvailability` is configured, the
feature toggle, the current/target primary and the fleet member names. -/
structure Cluster where
  replicationSlotsConfigured : Bool
  haEnabled : Bool
  currentPrimary : String
  targetPrimary : String
  instanceNames : List String
deriving DecidableEq, Repr

/-- Modelled from the spec: `GetSlotNameFromInstanceName` is declared on the
Cluster API type, whose implementation is not under `src/`; the spec states
each slot is "named deterministically from the instance name". -/
def GetSlotNameFromInstanceName (instanceName : String) : String :=
  "ha_slot_" ++ instanceName

/-- The expected slot set built by the create loop of
`reconcilePrimaryReplicationSlots`: one deterministically named slot per
fleet member, skipping the current primary itself. -/
def expectedSlots (cluster : Cluster) : List String :=
  (cluster.instanceNames.filter (fun i => i != cluster.currentPrimary)).map
    GetSlotNameFromInstanceName

/-- Engine calls issued by `reconcilePrimaryReplicationSlots`
(`internal/management/controller/slots/reconciler/replicationslot.go`),
assuming every engine call succeeds: if the feature is disabled the
(unimplemented) drop path issues no calls; otherwise list the current
slots, create every expected slot missing from the existing set, and
delete every existing slot that is neither expected nor active. -/
def reconcilePrimaryReplicationSlots (cluster : Cluster)
    (currentSlots : List ReplicationSlot) : List SlotCall :=
  if !cluster.haEnabled then [] else
  SlotCall.list ::
    ((cluster.instanceNames.filter (fun i => i != cluster.currentPrimary)).filterMap
      (fun i =>
        let slotName := GetSlotNameFromInstanceName i
        if (currentSlots.map ReplicationSlot.slotName).contains slotName then none
        else some (SlotCall.create slotName))
    ++ currentSlots.filterMap (fun slot =>
        if (expectedSlots cluster).contains slot.slotName then none
        else if slot.active then none
        else some (SlotCall.delete slot)))

/-- `ReconcileReplicationSlots`: a no-op unless the replication slot
feature is configured and the local instance is the current or target
primary. -/
def ReconcileReplicationSlots (instanceName : String) (cluster : Cluster)
    (currentSlots : List ReplicationSlot) : List SlotCall :=
  if !cluster.replicationSlotsConfigured then []
  else if cluster.currentPrimary == instanceName || cluster.targetPrimary == instanceName then
    reconcilePrimaryReplicationSlots cluster currentSlots
  else []

end Slots

namespace Probes

/-- The slice of `postgres.Instance` used by the status probe and the
process supervisor. -/
structure Instance where
  podName : String
  clusterName : String
  pgData : String
  pgRewindIsRunning : Bool
  instanceManagerIsUpgrading : Bool
  maxStopDelay : Nat
  maxSwitchoverDelay : Nat
deriving DecidableEq, Repr

/-- One row of `pg_stat_replication` as read by `fillWalStatus`.
LSNs are modelled as natural numbers: the `postgres.LSN` type itself is
not under `src/` and the spec describes an LSN as "a
monotonically-comparable log sequence number". -/
structure PgStatReplication where
  applicationName : String
  state : String
  sentLsn : Nat
  writeLsn : Nat
  flushLsn : Nat
  replayLsn : Nat
  syncState : String
  syncPriority : Nat
deriving DecidableEq, Repr

/-- The fields of `postgres.PostgresqlStatus` populated by the probe.
Every field keeps its Go zero value as default. -/
structure PostgresqlStatus where
  podName : String := ""
  instanceManagerVersion : String := ""
  isPgRewindRunning : Bool := false
  systemID : String := ""
  isPrimary : Bool := false
  pendingRestart : Bool := false
  pendingRestartForDecrease : Bool := false
  totalInstanceSize : String := ""
  lastArchivedWAL : String := ""
  isArchivingWAL : Bool := false
  currentWAL : String := ""
  currentLsn : Nat := 0
  timeLineID : Nat := 0
  receivedLsn : Nat := 0
  replayLsn : Nat := 0
  replayPaused : Bool := false
  isWalReceiverActive : Bool := false
  replicationInfo : List PgStatReplication := []
  readyWALFiles : Nat := 0
  instanceArch : String := ""
  executableHash : String := ""
  isInstanceManagerUpgrading : Bool := false
deriving DecidableEq, Repr

/-- The row returned by the first status query: system identifier,
primary classification, pending-restart flag and total size. -/
structure BasicStatusRow where
  systemID : String
  isPrimary : Bool
  pendingRestart : Bool
  totalInstanceSize : String
deriving DecidableEq, Repr

/-- The row read by `fillStatusFromPrimary`. -/
structure PrimaryStatusRow where
  lastArchivedWAL : String
  isArchivingWAL : Bool
  currentWAL : String
  currentLsn : Nat
  timeLineID : Nat
deriving DecidableEq, Repr

/-- The row read by `fillStatusFromReplica`: raw received/replayed LSNs
and the replay-paused flag. -/
structure ReplicaStatusRow where
  receivedLsn : Nat
  replayLsn : Nat
  replayPaused : Bool
deriving DecidableEq, Repr

/-- Identifiers for each engine interaction the probe may issue. -/
inductive QueryId where
  | basic
  | decreasedSettings
  | controldata
  | primaryStatus
  | replicaStatus
  | walReceiver
  | walStatusRows
  | readyWalFiles
  | executableHash
deriving DecidableEq, Repr

instance {ε α : Type} [DecidableEq ε] [DecidableEq α] : DecidableEq (Except ε α) := fun a b =>
  match a, b with
  | .error e, .error f =>
    if h : e = f then isTrue (by rw [h])
    else isFalse (by intro hh; injection hh; exact h ‹_›)
  | .error _, .ok _ => isFalse (by intro hh; exact Except.noConfusion hh)
  | .ok _, .error _ => isFalse (by intro hh; exact Except.noConfusion hh)
  | .ok x, .ok y =>
    if h : x = y then isTrue (by rw [h])
    else isFalse (by intro hh; injection hh; exact h ‹_›)

/-- The oracle giving the outcome of each engine interaction the probe
may issue during one call. -/
structure DbOracle where
  basicQuery : Except PgError BasicStatusRow
  decreasedSettings : Except PgError (List (String × String))
  controldataParams : Except PgError (List (String × String))
  primaryStatus : Except PgError PrimaryStatusRow
  replicaStatus : Except PgError ReplicaStatusRow
  walReceiverActive : Except PgError Bool
  walStatusRows : Except PgError (List PgStatReplication)
  readyWalFiles : Except PgError Nat
  executableHash : Except PgError String
deriving DecidableEq, Repr

/-- Go map indexing `m[k]`, which yields the zero value when the key is
absent, over an association-list model of the map. -/
def lookupDefault (m : List (String × String)) (k : String) : String :=
  match m.lookup k with
  | some v => v
  | none => ""

/-- `areAllParamsUpdated` from `probes.go`: counts the decreased
settings whose control-data value equals the new value and compares the
count with the number of decreased settings. -/
def areAllParamsUpdated (decreasedValues pgControldataParams : List (String × String)) : Bool :=
  decreasedValues.countP (fun p => lookupDefault pgControldataParams p.1 == p.2)
    == decreasedValues.length

/-- `updateResultForDecrease` from `probes.go`, with the issued
interactions traced: read the decreased hot-standby-sensitive settings;
if any exist, mark the pending restart as due to a decrease and, on a
replica, recompute `pendingRestart` from the on-disk control data. -/
def updateResultForDecreaseT (db : DbOracle) (result : PostgresqlStatus) :
    List QueryId × Except PgError PostgresqlStatus :=
  match db.decreasedSettings with
  | .error e => ([QueryId.decreasedSettings], .error e)
  | .ok decreasedValues =>
    if decreasedValues.isEmpty then ([QueryId.decreasedSettings], .ok result)
    else
      let result := { result with pendingRestartForDecrease := true }
      if result.isPrimary then ([QueryId.decreasedSettings], .ok result)
      else
        match db.controldataParams with
        | .error e => ([QueryId.decreasedSettings, QueryId.controldata], .error e)
        | .ok pgControldataParams =>
          ([QueryId.decreasedSettings, QueryId.controldata],
            .ok { result with
              pendingRestart := areAllParamsUpdated decreasedValues pgControldataParams })

/-- `fillStatusFromPrimary` from `probes.go`. -/
def fillStatusFromPrimaryT (db : DbOracle) (result : PostgresqlStatus) :
    List QueryId × Except PgError PostgresqlStatus :=
  match db.primaryStatus with
  | .error e => ([QueryId.primaryStatus], .error e)
  | .ok row =>
    ([QueryId.primaryStatus],
      .ok { result with
        lastArchivedWAL := row.lastArchivedWAL
        isArchivingWAL := row.isArchivingWAL
        currentWAL := row.currentWAL
        currentLsn := row.currentLsn
        timeLineID := row.timeLineID })

/-- `fillStatusFromReplica` from `probes.go`: read the raw received and
replayed LSNs and the replay-paused flag, clamp the received LSN up to
the replayed LSN if the raw read violated `received >= replayed`, then
read the WAL-receiver activity. -/
def fillStatusFromReplicaT (db : DbOracle) (result : PostgresqlStatus) :
    List QueryId × Except PgError PostgresqlStatus :=
  match db.replicaStatus with
  | .error e => ([QueryId.replicaStatus], .error e)
  | .ok row =>
    let result := { result with
      receivedLsn := row.receivedLsn
      replayLsn := row.replayLsn
      replayPaused := row.replayPaused }
    let result := if result.receivedLsn < result.replayLsn
      then { result with receivedLsn := result.replayLsn } else result
    match db.walReceiverActive with
    | .error e => ([QueryId.replicaStatus, QueryId.walReceiver], .error e)
    | .ok active =>
      ([QueryId.replicaStatus, QueryId.walReceiver],
        .ok { result with isWalReceiverActive := active })

/-- How one probe call ends as seen by the caller: a snapshot with a
nil error, a non-nil error, or a crash of the process (a Go panic). -/
inductive ProbeResult where
  | ok (s : PostgresqlStatus)
  | error (e : PgError)
  | panic
deriving DecidableEq, Repr

/-- `fillWalStatus` from `probes.go`: read the replication rows and the
WAL archive counters.  The source has no error check after the
`pg_stat_replication` query: on that failure `rows` is nil and
`rows.Next()` / the deferred `rows.Close()` dereference it, so the
probe crashes (`.panic`) instead of returning an error.  The archive
counter read is error-checked and aborts with an error. -/
def fillWalStatusT (db : DbOracle) (result : PostgresqlStatus) :
    List QueryId × ProbeResult :=
  match db.walStatusRows with
  | .error _ => ([QueryId.walStatusRows], .panic)
  | .ok rows =>
    let result := { result with replicationInfo := rows }
    match db.readyWalFiles with
    | .error e => ([QueryId.walStatusRows, QueryId.readyWalFiles], .error e)
    | .ok n =>
      ([QueryId.walStatusRows, QueryId.readyWalFiles],
        .ok { result with readyWALFiles := n })

/-- `fillStatus` from `probes.go`: branch on the primary classification,
then retrieve the WAL sender status. -/
def fillStatusT (db : DbOracle) (result : PostgresqlStatus) :
    List QueryId × ProbeResult :=
  match (if result.isPrimary then fillStatusFromPrimaryT db result
         else fillStatusFromReplicaT db result) with
  | (tr, .error e) => (tr, ProbeResult.error e)
  | (tr, .ok r) =>
    match fillWalStatusT db r with
    | (tr2, res) => (tr ++ tr2, res)

/-- The `versions.Version` build constant (its value is irrelevant to
every property proved here). -/
def versionsVersion : String := "instance-manager"

/-- The `runtime.GOARCH` build constant. -/
def goArch : String := "amd64"

/-- The status record after the basic row has been scanned into it. -/
def statusAfterBasic (inst : Instance) (row : BasicStatusRow) : PostgresqlStatus :=
  { podName := inst.podName
    instanceManagerVersion := versionsVersion
    systemID := row.systemID
    isPrimary := row.isPrimary
    pendingRestart := row.pendingRestart
    totalInstanceSize := row.totalInstanceSize }

/-- The tail of `GetStatus`: record the architecture, read the
executable hash and the upgrade flag. -/
def finishStatusT (inst : Instance) (db : DbOracle) (r2 : PostgresqlStatus) :
    List QueryId × Except PgError PostgresqlStatus :=
  let r2 := { r2 with instanceArch := goArch }
  match db.executableHash with
  | .error e => ([QueryId.executableHash], .error e)
  | .ok h =>
    ([QueryId.executableHash],
      .ok { r2 with
        executableHash := h
        isInstanceManagerUpgrading := inst.instanceManagerIsUpgrading })

/-- The body of `GetStatus` after the basic status query succeeded:
refine a reported pending restart, fill the role-specific and WAL
status, then finish. -/
def probeAfterBasicT (inst : Instance) (db : DbOracle) (row : BasicStatusRow) :
    List QueryId × ProbeResult :=
  match (if (statusAfterBasic inst row).pendingRestart
         then updateResultForDecreaseT db (statusAfterBasic inst row)
         else ([], .ok (statusAfterBasic inst row))) with
  | (tr, .error e) => (tr, ProbeResult.error e)
  | (tr, .ok r1) =>
    match fillStatusT db r1 with
    | (tr2, .error e) => (tr ++ tr2, ProbeResult.error e)
    | (tr2, .panic) => (tr ++ tr2, ProbeResult.panic)
    | (tr2, .ok r2) =>
      match finishStatusT inst db r2 with
      | (tr3, .error e) => (tr ++ tr2 ++ tr3, ProbeResult.error e)
      | (tr3, .ok s) => (tr ++ tr2 ++ tr3, ProbeResult.ok s)

/-- `GetStatus` from `probes.go`, with the issued interactions traced:
short-circuit when pg_rewind is running, read the basic status row and
continue with `probeAfterBasicT`. -/
def GetStatusT (inst : Instance) (db : DbOracle) :
    List QueryId × ProbeResult :=
  if inst.pgRewindIsRunning then
    ([], .ok { podName := inst.podName
               instanceManagerVersion := versionsVersion
               isPgRewindRunning := true })
  else
    match db.basicQuery with
    | .error e => ([QueryId.basic], ProbeResult.error e)
    | .ok row =>
      match probeAfterBasicT inst db row with
      | (tr, res) => (QueryId.basic :: tr, res)

/-- The probe result as seen by the caller. -/
def GetStatus (inst : Instance) (db : DbOracle) : ProbeResult :=
  (GetStatusT inst db).2

/-- An oracle whose every interaction fails; witnesses override the
fields they need. -/
def dbAllErr : DbOracle where
  basicQuery := .error "basic"
  decreasedSettings := .error "decreased"
  controldataParams := .error "controldata"
  primaryStatus := .error "primary"
  replicaStatus := .error "replica"
  walReceiverActive := .error "walreceiver"
  walStatusRows := .error "walstatus"
  readyWalFiles := .error "readywal"
  executableHash := .error "hash"

/-- A concrete instance used by witnesses. -/
def inst0 : Instance where
  podName := "cluster-example-1"
  clusterName := "cluster-example"
  pgData := "/var/lib/postgresql/data/pgdata"
  pgRewindIsRunning := false
  instanceManagerIsUpgrading := false
  maxStopDelay := 30
  maxSwitchoverDelay := 40

/-- A concrete instance with a pg_rewind repair in progress. -/
def instRewind : Instance := { inst0 with pgRewindIsRunning := true }

/-- A concrete oracle for a healthy replica whose raw LSN reads were
observed out of order (received 3 < replayed 5). -/
def dbReplica0 : DbOracle := { dbAllErr with
  basicQuery := .ok ⟨"6000", false, false, "1 GB"⟩
  replicaStatus := .ok ⟨3, 5, false⟩
  walReceiverActive := .ok true
  walStatusRows := .ok []
  readyWalFiles := .ok 0
  executableHash := .ok "hash" }

/-- A concrete oracle where everything up to the `pg_stat_replication`
query succeeds and that query fails. -/
def dbWalFail : DbOracle := { dbReplica0 with walStatusRows := .error "walstatus" }

/-- The snapshot `GetStatus` produces for `inst0` against `dbReplica0`. -/
def statusReplica0 : PostgresqlStatus where
  podName := "cluster-example-1"
  instanceManagerVersion := versionsVersion
  systemID := "6000"
  totalInstanceSize := "1 GB"
  receivedLsn := 5
  replayLsn := 5
  isWalReceiverActive := true
  instanceArch := goArch
  executableHash := "hash"

end Probes

namespace Lifecycle

/-- `postgres.InstanceCommand`: the two command kinds sent on the
instance command channel. -/
inductive InstanceCommand where
  | restartSmartFast
  | shutDownFastImmediate
deriving DecidableEq, Repr

/-- Modelled from the spec: the bodies of `tryShuttingDownSmartFast` and
`tryShuttingDownFastImmediate` are not under `src/`; per the spec each
runs a two-stage shutdown escalation within a time budget, so a shutdown
request is modelled as a descriptor carrying the stage pair and the
budget passed at the call site in `lifecycle.go`. -/
inductive ShutdownSequence where
  | smartFast (budget : Nat)
  | fastImmediate (budget : Nat)
deriving DecidableEq, Repr

/-- The four mutually exclusive triggers racing in the `select` of
`PostgresLifecycle.Start` while the postmaster runs. -/
inductive LifecycleTrigger where
  | postmasterExited (err : Option PgError)
  | contextCancelled
  | signalReceived
  | commandReceived (c : InstanceCommand)
deriving DecidableEq, Repr

/-- What the supervision cycle does after handling a trigger. -/
inductive CycleOutcome where
  | exitSupervisor (err : Option PgError)
  | reenterStarting
deriving DecidableEq, Repr

/-- `handleInstanceCommandRequests` from `lifecycle.go`: a restart
command shuts down smart-then-fast within the switchover-delay budget
and requests a restart; a do-not-restart command shuts down
fast-then-immediate within the stop-delay budget and requests no
restart. -/
def handleInstanceCommandRequests (inst : Probes.Instance) (req : InstanceCommand) :
    Option ShutdownSequence × Bool :=
  match req with
  | .restartSmartFast => (some (.smartFast inst.maxSwitchoverDelay), true)
  | .shutDownFastImmediate => (some (.fastImmediate inst.maxStopDelay), false)

/-- The dispatch of `PostgresLifecycle.Start` on one trigger from the
Running state: which shutdown sequence is run, and whether the cycle
loops back to Starting or the supervisor exits. -/
def lifecycleStep (inst : Probes.Instance) (t : LifecycleTrigger) :
    Option ShutdownSequence × CycleOutcome :=
  match t with
  | .postmasterExited e => (none, .exitSupervisor e)
  | .contextCancelled => (some (.smartFast inst.maxStopDelay), .exitSupervisor none)
  | .signalReceived =>
    (some (.smartFast (inst.maxStopDelay / 2)), .exitSupervisor none)
  | .commandReceived c =>
    let r := handleInstanceCommandRequests inst c
    (r.1, if r.2 then .reenterStarting else .exitSupervisor none)

end Lifecycle

namespace Hba

/-- `InstallPgDataFileContent` from `configuration.go`: the write
outcome (changed flag, or failure) is the oracle. -/
def InstallPgDataFileContent (write : Except PgError Bool) : Bool × Option PgError :=
  match write with
  | .error e => (false, some e)
  | .ok changed => (changed, none)

/-- `RefreshPGHBA` from `configuration.go`: generate the pg_hba content
(outcome `genHBA`), then install it (outcome `install`, a function of
the generated content).  The source returns `false, nil` when the
generation step fails, discarding that error. -/
def RefreshPGHBA (genHBA : Except PgError String)
    (install : String → Except PgError Bool) : Bool × Option PgError :=
  match genHBA with
  | .error _ => (false, none)
  | .ok content =>
    match InstallPgDataFileContent (install content) with
    | (changed, none) => (changed, none)
    | (changed, some e) =>
      (changed, some ("installing postgresql HBA rules: " ++ e))

end Hba

namespace Config

/-- One line of a PostgreSQL configuration file: a `key = value`
assignment or any other (comment/unmanaged) text line.  Modelled from
the spec: the `configfile` helpers are not under `src/`; file content is
modelled at line granularity and byte-identity of the file corresponds
to equality of the line list. -/
inductive ConfLine where
  | assign (key value : String)
  | other (text : String)
deriving DecidableEq, Repr

/-- Whether the content has an assignment of the given key. -/
def hasAssign (content : List ConfLine) (k : String) : Bool :=
  content.any (fun l => match l with
    | .assign kk _ => kk == k
    | .other _ => false)

/-- Modelled from the spec: the line-rewriting pass of
`configfile.UpdatePostgresConfigurationFile` — the first occurrence of a
managed key is rewritten in place with the option value, later
duplicates are dropped, assignments of keys listed for removal (and not
among the options) are dropped, and unrelated lines are untouched.
`seen` carries the managed keys already rewritten. -/
def updateLines (options : List (String × String)) (removed : List String) :
    List ConfLine → List String → List ConfLine
  | [], _ => []
  | .assign k v :: rest, seen =>
    match options.lookup k with
    | some newV =>
      if k ∈ seen then updateLines options removed rest seen
      else .assign k newV :: updateLines options removed rest (k :: seen)
    | none =>
      if k ∈ removed then updateLines options removed rest seen
      else .assign k v :: updateLines options removed rest seen
  | .other t :: rest, seen => .other t :: updateLines options removed rest seen

/-- Modelled from the spec: the content transformation of
`configfile.UpdatePostgresConfigurationFile` — rewrite the managed keys
in place, then append the options whose key does not occur in the file. -/
def updateContents (content : List ConfLine) (options : List (String × String))
    (removed : List String) : List ConfLine :=
  updateLines options removed content []
    ++ (options.filter (fun p => !hasAssign content p.1)).map
        (fun p => ConfLine.assign p.1 p.2)

/-- Modelled from the spec: `configfile.UpdatePostgresConfigurationFile`
together with the change detection of the file-writing helper — compute
the updated content and report `changed` exactly when it differs from
what is on disk. -/
def UpdatePostgresConfigurationFile (current : List ConfLine)
    (options : List (String × String)) (removed : List String) :
    Bool × List ConfLine :=
  let updated := updateContents current options removed
  (decide (updated ≠ current), updated)

/-- The slice of the data directory the replica-configuration writer
touches: the legacy combined recovery file, the modern override file and
the modern standby marker. -/
structure DataDir where
  recoveryConf : List ConfLine
  overrideConf : List ConfLine
  standbySignalExists : Bool
deriving DecidableEq, Repr

/-- The `restore_command` written by both generations (built in
`configuration.go` from the log path constants). -/
def restoreCommandValue : String :=
  "/controller/manager wal-restore --log-destination /controller/log/postgres.json %f %p"

/-- The option set of `configureRecoveryConfFile` (PostgreSQL 11 and
earlier): `primary_slot_name` and `primary_conninfo` are included only
when non-empty. -/
def recoveryOptions (primaryConnInfo slotName : String) : List (String × String) :=
  [("standby_mode", "on"),
   ("restore_command", restoreCommandValue),
   ("recovery_target_timeline", "latest")]
  ++ (if slotName ≠ "" then [("primary_slot_name", slotName)] else [])
  ++ (if primaryConnInfo ≠ "" then [("primary_conninfo", primaryConnInfo)] else [])

/-- `configureRecoveryConfFile` from `configuration.go`: rewrite
`recovery.conf`, removing stale `primary_slot_name` /
`primary_conninfo` assignments not among the options. -/
def configureRecoveryConfFile (dd : DataDir) (primaryConnInfo slotName : String) :
    Bool × DataDir :=
  let r := UpdatePostgresConfigurationFile dd.recoveryConf
      (recoveryOptions primaryConnInfo slotName)
      ["primary_slot_name", "primary_conninfo"]
  (r.1, { dd with recoveryConf := r.2 })

/-- The option set of `configurePostgresOverrideConfFile` (PostgreSQL 12
and newer): `primary_slot_name` is always included, even when empty. -/
def overrideOptions (primaryConnInfo slotName : String) : List (String × String) :=
  [("restore_command", restoreCommandValue),
   ("recovery_target_timeline", "latest"),
   ("primary_slot_name", slotName)]
  ++ (if primaryConnInfo ≠ "" then [("primary_conninfo", primaryConnInfo)] else [])

/-- `configurePostgresOverrideConfFile` from `configuration.go`. -/
def configurePostgresOverrideConfFile (dd : DataDir)
    (primaryConnInfo slotName : String) : Bool × DataDir :=
  let r := UpdatePostgresConfigurationFile dd.overrideConf
      (overrideOptions primaryConnInfo slotName) []
  (r.1, { dd with overrideConf := r.2 })

/-- `createStandbySignal` from `configuration.go`. -/
def createStandbySignal (dd : DataDir) : DataDir :=
  { dd with standbySignalExists := true }

/-- `UpdateReplicaConfiguration` from `configuration.go`: dispatch on
the engine major version. -/
def UpdateReplicaConfiguration (major : Nat) (dd : DataDir)
    (primaryConnInfo slotName : String) : Bool × DataDir :=
  if major < 12 then configureRecoveryConfFile dd primaryConnInfo slotName
  else configurePostgresOverrideConfFile (createStandbySignal dd) primaryConnInfo slotName

/-- Contents on which the line-rewriting pass is a fixpoint, relative to
the managed keys already rewritten (`seen`): every managed-key
assignment is a first occurrence carrying the option value, and no
removable assignment remains. -/
def Normal (options : List (String × String)) (removed : List String) :
    List String → List ConfLine → Prop
  | _, [] => True
  | seen, .assign k v :: rest =>
    match options.lookup k with
    | some w => k ∉ seen ∧ v = w ∧ Normal options removed (k :: seen) rest
    | none => k ∉ removed ∧ Normal options removed seen rest
  | seen, .other _ :: rest => Normal options removed seen rest

/-- The managed keys consumed after the rewriting pass walks `content`. -/
def seenAfter (options : List (String × String)) :
    List ConfLine → List String → List String
  | [], seen => seen
  | .assign k _ :: rest, seen =>
    match options.lookup k with
    | some _ =>
      if k ∈ seen then seenAfter options rest seen
      else seenAfter options rest (k :: seen)
    | none => seenAfter options rest seen
  | .other _ :: rest, seen => seenAfter options rest seen

end Config

open Slots in
/-- C1: during a slot reconciliation pass on the primary with the slot
feature enabled, the reconciler never issues a delete for a slot whose
active flag is true; for every existing slot not in the expected set a
delete is issued if and only if the slot is inactive; and on existing
slots a (active), b, c (inactive) with an empty expected set the delete
set is exactly b, c. -/
theorem reconciler_deletes_only_inactive
    (cluster : Cluster) (currentSlots : List ReplicationSlot) (instanceName : String)
    (hconf : cluster.replicationSlotsConfigured = true)
    (hen : cluster.haEnabled = true)
    (hprim : cluster.currentPrimary = instanceName) :
    (∀ slot : ReplicationSlot, slot.active = true →
        SlotCall.delete slot ∉ ReconcileReplicationSlots instanceName cluster currentSlots)
    ∧ (∀ slot ∈ currentSlots, ((expectedSlots cluster).contains slot.slotName) = false →
        (SlotCall.delete slot ∈ ReconcileReplicationSlots instanceName cluster currentSlots
          ↔ slot.active = false))
    ∧ ReconcileReplicationSlots "p-1"
        ⟨true, true, "p-1", "p-1", ["p-1"]⟩
        [⟨"a", true⟩, ⟨"b", false⟩, ⟨"c", false⟩]
      = [SlotCall.list, SlotCall.delete ⟨"b", false⟩, SlotCall.delete ⟨"c", false⟩] := by
  subst hprim
  have hcalls : ReconcileReplicationSlots cluster.currentPrimary cluster currentSlots
      = SlotCall.list ::
        ((cluster.instanceNames.filter (fun i => i != cluster.currentPrimary)).filterMap
          (fun i =>
            let slotName := GetSlotNameFromInstanceName i
            if (currentSlots.map ReplicationSlot.slotName).contains slotName then none
            else some (SlotCall.create slotName))
        ++ currentSlots.filterMap (fun slot =>
            if (expectedSlots cluster).contains slot.slotName then none
            else if slot.active then none
            else some (SlotCall.delete slot))) := by
    simp [ReconcileReplicationSlots, reconcilePrimaryReplicationSlots, hconf, hen]
  refine ⟨?_, ?_, by decide⟩
  · intro slot hact hmem
    rw [hcalls] at hmem
    rcases List.mem_cons.mp hmem with h | h
    · exact SlotCall.noConfusion h
    rcases List.mem_append.mp h with h | h
    · rcases List.mem_filterMap.mp h with ⟨i, _, hi⟩
      simp only at hi
      split at hi
      · exact Option.noConfusion hi
      · exact SlotCall.noConfusion (Option.some.inj hi)
    · rcases List.mem_filterMap.mp h with ⟨s, _, hs⟩
      split at hs
      · exact Option.noConfusion hs
      split at hs
      · exact Option.noConfusion hs
      · have := Option.some.inj hs
        have hss : s = slot := by
          injection this
        rw [hss] at *
        simp_all
  · intro slot hmem hexp
    rw [hcalls]
    constructor
    · intro hdel
      rcases List.mem_cons.mp hdel with h | h
      · exact absurd h (by simp)
      rcases List.mem_append.mp h with h | h
      · rcases List.mem_filterMap.mp h with ⟨i, _, hi⟩
        simp only at hi
        split at hi
        · exact Option.noConfusion hi
        · exact SlotCall.noConfusion (Option.some.inj hi)
      · rcases List.mem_filterMap.mp h with ⟨s, _, hs⟩
        split at hs
        · exact Option.noConfusion hs
        split at hs
        · exact Option.noConfusion hs
        · have hss : s = slot := by
            have := Option.some.inj hs
            injection this
          subst hss
          simp_all [Bool.not_eq_true]
    · intro hact
      apply List.mem_cons_of_mem
      apply List.mem_append_right
      apply List.mem_filterMap.mpr
      refine ⟨slot, hmem, ?_⟩
      rw [hexp]
      simp [hact]

open Slots in
/-- Witness for C1: at the concrete scenario of the claim, applying the
theorem shows the active slot a is never deleted. -/
theorem reconciler_deletes_only_inactive_witness :
    SlotCall.delete ⟨"a", true⟩ ∉
      ReconcileReplicationSlots "p-1"
        ⟨true, true, "p-1", "p-1", ["p-1"]⟩
        [⟨"a", true⟩, ⟨"b", false⟩, ⟨"c", false⟩] :=
  (reconciler_deletes_only_inactive
      ⟨true, true, "p-1", "p-1", ["p-1"]⟩
      [⟨"a", true⟩, ⟨"b", false⟩, ⟨"c", false⟩] "p-1"
      rfl rfl rfl).1 ⟨"a", true⟩ rfl

open Slots in
/-- C8: the reconciler issues engine calls only on the instance named as
current or target primary (elsewhere, and when the feature stanza is
absent, it issues none); every create call it issues names the
deterministic slot of a non-primary fleet member; and for a three-member
fleet p-1 (primary), p-2, p-3 with the feature enabled and no existing
slots, a run creates exactly the slots of p-2 and p-3. -/
theorem reconciler_engine_calls_only_on_primary :
    (∀ (instanceName : String) (cluster : Cluster) (currentSlots : List ReplicationSlot),
        cluster.currentPrimary ≠ instanceName → cluster.targetPrimary ≠ instanceName →
        ReconcileReplicationSlots instanceName cluster currentSlots = [])
    ∧ (∀ (instanceName s : String) (cluster : Cluster) (currentSlots : List ReplicationSlot),
        SlotCall.create s ∈ ReconcileReplicationSlots instanceName cluster currentSlots →
        ∃ i ∈ cluster.instanceNames, i ≠ cluster.currentPrimary
          ∧ s = GetSlotNameFromInstanceName i)
    ∧ ReconcileReplicationSlots "p-1"
        ⟨true, true, "p-1", "p-1", ["p-1", "p-2", "p-3"]⟩ []
      = [SlotCall.list,
          SlotCall.create (GetSlotNameFromInstanceName "p-2"),
          SlotCall.create (GetSlotNameFromInstanceName "p-3")] := by
  refine ⟨?_, ?_, by decide⟩
  · intro instanceName cluster currentSlots hcur htgt
    simp [ReconcileReplicationSlots]
    intro _ h
    rcases h with h | h
    · exact absurd h hcur
    · exact absurd h htgt
  · intro instanceName s cluster currentSlots hmem
    simp only [ReconcileReplicationSlots] at hmem
    split at hmem
    · exact absurd hmem (List.not_mem_nil _)
    split at hmem
    · simp only [reconcilePrimaryReplicationSlots] at hmem
      split at hmem
      · exact absurd hmem (List.not_mem_nil _)
      rcases List.mem_cons.mp hmem with h | h
      · exact SlotCall.noConfusion h
      rcases List.mem_append.mp h with h | h
      · rcases List.mem_filterMap.mp h with ⟨i, hi, heq⟩
        rcases List.mem_filter.mp hi with ⟨himem, hine⟩
        refine ⟨i, himem, ?_, ?_⟩
        · simpa using hine
        · simp only [GetSlotNameFromInstanceName] at heq
          split at heq
          · exact Option.noConfusion heq
          · have := Option.some.inj heq
            injection this with h
            exact h.symm
      · rcases List.mem_filterMap.mp h with ⟨sl, _, hs⟩
        split at hs
        · exact Option.noConfusion hs
        split at hs
        · exact Option.noConfusion hs
        · exact SlotCall.noConfusion (Option.some.inj hs)
    · exact absurd hmem (List.not_mem_nil _)

open Slots in
/-- Witness for C8: a non-primary member running the reconciler issues no
engine calls. -/
theorem reconciler_engine_calls_only_on_primary_witness :
    ReconcileReplicationSlots "p-2"
      ⟨true, true, "p-1", "p-1", ["p-1", "p-2", "p-3"]⟩ [] = [] :=
  reconciler_engine_calls_only_on_primary.1 "p-2"
    ⟨true, true, "p-1", "p-1", ["p-1", "p-2", "p-3"]⟩ []
    (by decide) (by decide)


namespace Probes

/-- The boolean `areAllParamsUpdated` is true exactly when every
decreased setting has its new value in the control data, and false
exactly when some decreased setting does not. -/
theorem areAllParamsUpdated_iff (dv cd : List (String × String)) :
    (areAllParamsUpdated dv cd = true ↔ ∀ p ∈ dv, lookupDefault cd p.1 = p.2)
    ∧ (areAllParamsUpdated dv cd = false ↔ ∃ p ∈ dv, lookupDefault cd p.1 ≠ p.2) := by
  have h1 : areAllParamsUpdated dv cd = true ↔ ∀ p ∈ dv, lookupDefault cd p.1 = p.2 := by
    unfold areAllParamsUpdated
    rw [beq_iff_eq, List.countP_eq_length]
    constructor
    · intro h p hp
      simpa using h p hp
    · intro h p hp
      simpa using h p hp
  refine ⟨h1, ?_⟩
  rw [Bool.eq_false_iff, Ne, h1]
  push_neg
  rfl

/-- `updateResultForDecreaseT` changes neither the primary
classification nor the LSN fields of the status. -/
theorem updateResultForDecreaseT_preserves (db : DbOracle) (r r1 : PostgresqlStatus)
    (hok : (updateResultForDecreaseT db r).2 = .ok r1) :
    r1.isPrimary = r.isPrimary ∧ r1.receivedLsn = r.receivedLsn
      ∧ r1.replayLsn = r.replayLsn := by
  cases hd : db.decreasedSettings with
  | error e => simp [updateResultForDecreaseT, hd] at hok
  | ok dv =>
    by_cases he : dv.isEmpty
    · simp [updateResultForDecreaseT, hd, he] at hok
      subst hok
      exact ⟨rfl, rfl, rfl⟩
    · by_cases hp : r.isPrimary
      · simp [updateResultForDecreaseT, hd, he, hp] at hok
        subst hok
        simp [hp]
      · cases hc : db.controldataParams with
        | error e => simp [updateResultForDecreaseT, hd, he, hp, hc] at hok
        | ok cd =>
          simp [updateResultForDecreaseT, hd, he, hp, hc] at hok
          subst hok
          simp [hp]

/-- `fillStatusFromPrimaryT` preserves the primary classification. -/
theorem fillStatusFromPrimaryT_preserves (db : DbOracle) (r r1 : PostgresqlStatus)
    (hok : (fillStatusFromPrimaryT db r).2 = .ok r1) :
    r1.isPrimary = r.isPrimary := by
  cases hd : db.primaryStatus with
  | error e => simp [fillStatusFromPrimaryT, hd] at hok
  | ok row =>
    simp [fillStatusFromPrimaryT, hd] at hok
    subst hok
    rfl

/-- A successful `fillStatusFromReplicaT` preserves the primary
classification, satisfies `replayed <= received`, and clamps the
received LSN up to the replayed LSN whenever the raw read violated the
invariant. -/
theorem fillStatusFromReplicaT_clamps (db : DbOracle) (r r1 : PostgresqlStatus)
    (hok : (fillStatusFromReplicaT db r).2 = .ok r1) :
    r1.isPrimary = r.isPrimary ∧ r1.replayLsn ≤ r1.receivedLsn
      ∧ (∀ row : ReplicaStatusRow, db.replicaStatus = .ok row →
          row.receivedLsn < row.replayLsn → r1.receivedLsn = row.replayLsn) := by
  cases hd : db.replicaStatus with
  | error e => simp [fillStatusFromReplicaT, hd] at hok
  | ok row =>
    cases hw : db.walReceiverActive with
    | error e => simp [fillStatusFromReplicaT, hd, hw] at hok
    | ok active =>
      by_cases hlt : row.receivedLsn < row.replayLsn
      · simp [fillStatusFromReplicaT, hd, hw, hlt] at hok
        subst hok
        refine ⟨rfl, le_refl _, ?_⟩
        intro row' hrow' _
        have : row' = row := (Except.ok.inj hrow').symm
        subst this
        rfl
      · simp [fillStatusFromReplicaT, hd, hw, hlt] at hok
        subst hok
        refine ⟨rfl, Nat.le_of_not_lt hlt, ?_⟩
        intro row' hrow' hlt'
        have : row' = row := (Except.ok.inj hrow').symm
        subst this
        exact absurd hlt' hlt

/-- `fillWalStatusT` preserves the primary classification and the LSN
fields. -/
theorem fillWalStatusT_preserves (db : DbOracle) (r r1 : PostgresqlStatus)
    (hok : (fillWalStatusT db r).2 = .ok r1) :
    r1.isPrimary = r.isPrimary ∧ r1.receivedLsn = r.receivedLsn
      ∧ r1.replayLsn = r.replayLsn := by
  cases hd : db.walStatusRows with
  | error e => simp [fillWalStatusT, hd] at hok
  | ok rows =>
    cases hw : db.readyWalFiles with
    | error e => simp [fillWalStatusT, hd, hw] at hok
    | ok n =>
      simp [fillWalStatusT, hd, hw] at hok
      subst hok
      exact ⟨rfl, rfl, rfl⟩

/-- A successful `fillStatusT` preserves the primary classification and,
on a replica, establishes `replayed <= received`. -/
theorem fillStatusT_invariant (db : DbOracle) (r r2 : PostgresqlStatus)
    (hok : (fillStatusT db r).2 = .ok r2) :
    r2.isPrimary = r.isPrimary
      ∧ (r.isPrimary = false → r2.replayLsn ≤ r2.receivedLsn) := by
  unfold fillStatusT at hok
  rcases hrole : (if r.isPrimary then fillStatusFromPrimaryT db r
                  else fillStatusFromReplicaT db r) with ⟨tr, res⟩
  rw [hrole] at hok
  cases res with
  | error e => simp at hok
  | ok r1 =>
    dsimp only at hok
    rcases hwal : fillWalStatusT db r1 with ⟨tr2, res2⟩
    rw [hwal] at hok
    cases res2 with
    | error e => simp at hok
    | panic => simp at hok
    | ok r2' =>
      dsimp only at hok
      injection hok with hok2
      subst hok2
      have hw := fillWalStatusT_preserves db r1 r2' (by rw [hwal])
      by_cases hp : r.isPrimary
      · rw [if_pos hp] at hrole
        have h1 := fillStatusFromPrimaryT_preserves db r r1 (by rw [hrole])
        refine ⟨by rw [hw.1, h1], ?_⟩
        intro hfalse
        rw [hfalse] at hp
        exact absurd hp (by simp)
      · rw [if_neg hp] at hrole
        have h1 := fillStatusFromReplicaT_clamps db r r1 (by rw [hrole])
        refine ⟨by rw [hw.1, h1.1], ?_⟩
        intro _
        rw [hw.2.1, hw.2.2]
        exact h1.2.1

/-- `finishStatusT` preserves the primary classification and the LSN
fields. -/
theorem finishStatusT_preserves (inst : Instance) (db : DbOracle) (r s : PostgresqlStatus)
    (hok : (finishStatusT inst db r).2 = .ok s) :
    s.isPrimary = r.isPrimary ∧ s.receivedLsn = r.receivedLsn
      ∧ s.replayLsn = r.replayLsn := by
  cases hh : db.executableHash with
  | error e => simp [finishStatusT, hh] at hok
  | ok h =>
    simp [finishStatusT, hh] at hok
    subst hok
    exact ⟨rfl, rfl, rfl⟩

/-- A successful `probeAfterBasicT` for a replica satisfies
`replayed <= received`. -/
theorem probeAfterBasicT_replica_lsn (inst : Instance) (db : DbOracle)
    (row : BasicStatusRow) (s : PostgresqlStatus)
    (hok : (probeAfterBasicT inst db row).2 = .ok s)
    (hrep : s.isPrimary = false) :
    s.replayLsn ≤ s.receivedLsn := by
  unfold probeAfterBasicT at hok
  rcases hstep : (if (statusAfterBasic inst row).pendingRestart
      then updateResultForDecreaseT db (statusAfterBasic inst row)
      else ([], .ok (statusAfterBasic inst row))) with ⟨tr, res⟩
  rw [hstep] at hok
  cases res with
  | error e => simp at hok
  | ok r1 =>
    dsimp only at hok
    rcases hfill : fillStatusT db r1 with ⟨tr2, res2⟩
    rw [hfill] at hok
    cases res2 with
    | error e => simp at hok
    | panic => simp at hok
    | ok r2 =>
      dsimp only at hok
      rcases hfin : finishStatusT inst db r2 with ⟨tr3, res3⟩
      rw [hfin] at hok
      cases res3 with
      | error e => simp at hok
      | ok s' =>
        dsimp only at hok
        injection hok with hok2
        subst hok2
        have hfinp := finishStatusT_preserves inst db r2 s' (by rw [hfin])
        have hfillp := fillStatusT_invariant db r1 r2 (by rw [hfill])
        have hr1rep : r1.isPrimary = false := by
          rw [← hfillp.1, ← hfinp.1]
          exact hrep
        have := hfillp.2 hr1rep
        rw [hfinp.2.1, hfinp.2.2]
        exact this

end Probes

open Probes in
/-- C2: when the engine reports a pending restart caused by a decrease
of a hot-standby-sensitive setting and the instance is a replica, the
probe reports PendingRestart false exactly while some decreased
setting's new value is not yet in the on-disk control data, and true
exactly once every decreased setting's control-data value equals its
new target value. -/
theorem pending_restart_masked_on_replica
    (db : DbOracle) (result : PostgresqlStatus) (dv cd : List (String × String))
    (hdv : db.decreasedSettings = .ok dv) (hcd : db.controldataParams = .ok cd)
    (hne : dv ≠ []) (_hpr : result.pendingRestart = true)
    (hrep : result.isPrimary = false) :
    (updateResultForDecreaseT db result).2
      = .ok { result with
          pendingRestartForDecrease := true
          pendingRestart := areAllParamsUpdated dv cd }
    ∧ (areAllParamsUpdated dv cd = false ↔ ∃ p ∈ dv, lookupDefault cd p.1 ≠ p.2)
    ∧ (areAllParamsUpdated dv cd = true ↔ ∀ p ∈ dv, lookupDefault cd p.1 = p.2) := by
  have he : ¬ dv.isEmpty := by
    cases dv with
    | nil => exact absurd rfl hne
    | cons a l => simp
  refine ⟨?_, (areAllParamsUpdated_iff dv cd).2, (areAllParamsUpdated_iff dv cd).1⟩
  simp [updateResultForDecreaseT, hdv, he, hrep, hcd]

open Probes in
/-- Witness for C2: with one decreased setting absent from the control
data, the probe reports PendingRestart false on the replica. -/
theorem pending_restart_masked_on_replica_witness :
    (updateResultForDecreaseT
        { dbAllErr with
            decreasedSettings := .ok [("max_connections", "100")]
            controldataParams := .ok [] }
        { pendingRestart := true }).2
      = .ok { pendingRestart := areAllParamsUpdated [("max_connections", "100")] []
              pendingRestartForDecrease := true } :=
  (pending_restart_masked_on_replica
      { dbAllErr with
          decreasedSettings := .ok [("max_connections", "100")]
          controldataParams := .ok [] }
      { pendingRestart := true }
      [("max_connections", "100")] []
      rfl rfl (by decide) rfl rfl).1

open Probes in
/-- C3: every successful status snapshot of a replica satisfies
receivedLSN >= replayedLSN, and whenever the raw reads were observed
out of order the received LSN is clamped up to the replayed LSN. -/
theorem replica_received_not_less_than_replayed
    (inst : Instance) (db : DbOracle) (s : PostgresqlStatus)
    (hok : GetStatus inst db = .ok s) (hrep : s.isPrimary = false) :
    s.replayLsn ≤ s.receivedLsn
    ∧ (∀ (r s' : PostgresqlStatus) (row : ReplicaStatusRow),
        db.replicaStatus = .ok row →
        (fillStatusFromReplicaT db r).2 = .ok s' →
        row.receivedLsn < row.replayLsn →
        s'.receivedLsn = row.replayLsn) := by
  constructor
  · have hok' : (GetStatusT inst db).2 = .ok s := hok
    unfold GetStatusT at hok'
    by_cases hrw : inst.pgRewindIsRunning
    · rw [if_pos hrw] at hok'
      dsimp only at hok'
      injection hok' with h
      subst h
      exact Nat.le_refl _
    · rw [if_neg hrw] at hok'
      cases hb : db.basicQuery with
      | error e => rw [hb] at hok'; simp at hok'
      | ok row =>
        rw [hb] at hok'
        dsimp only at hok'
        rcases hab : probeAfterBasicT inst db row with ⟨tr, res⟩
        rw [hab] at hok'
        dsimp only at hok'
        cases res with
        | error e => simp at hok'
        | panic => simp at hok'
        | ok s' =>
          injection hok' with h
          subst h
          exact probeAfterBasicT_replica_lsn inst db row s' (by rw [hab]) hrep
  · intro r s' row hrow hfill hlt
    exact (fillStatusFromReplicaT_clamps db r s' hfill).2.2 row hrow hlt

open Probes in
/-- Witness for C3: against raw reads received 3 < replayed 5 the
returned snapshot satisfies the invariant (both LSNs read back as 5). -/
theorem replica_received_not_less_than_replayed_witness :
    statusReplica0.replayLsn ≤ statusReplica0.receivedLsn :=
  (replica_received_not_less_than_replayed inst0 dbReplica0 statusReplica0 rfl rfl).1

open Probes in
/-- C7: counter-evidence — the probe does not abort with an error on
every query failure: `fillWalStatus` has no error check after the
`pg_stat_replication` query, so when only that query fails the probe
dereferences the nil rows and crashes instead of returning an error,
while a failure of an error-checked query (here the basic status
query) does abort the probe with that error. -/
theorem probe_panics_on_walstatus_failure :
    GetStatus inst0 dbWalFail = ProbeResult.panic
    ∧ GetStatus inst0 dbAllErr = ProbeResult.error "basic" :=
  ⟨rfl, rfl⟩

open Probes in
/-- C10: when the pg_rewind repair flag is set, the probe immediately
returns a snapshot with the rewind indicator set and no error, issues no
engine interaction, and leaves every other field at its default. -/
theorem rewind_short_circuits_probe (inst : Instance) (db : DbOracle)
    (h : inst.pgRewindIsRunning = true) :
    GetStatusT inst db
      = ([], .ok { podName := inst.podName
                   instanceManagerVersion := versionsVersion
                   isPgRewindRunning := true }) := by
  simp [GetStatusT, h]

open Probes in
/-- Witness for C10: a concrete instance with the rewind flag set. -/
theorem rewind_short_circuits_probe_witness :
    GetStatusT instRewind dbAllErr
      = ([], .ok { podName := "cluster-example-1"
                   instanceManagerVersion := versionsVersion
                   isPgRewindRunning := true }) :=
  rewind_short_circuits_probe instRewind dbAllErr rfl

namespace Config

/-- The key of an assignment deeper in the list is still assigned after
consing any line on front. -/
theorem hasAssign_tail (l : ConfLine) {rest : List ConfLine} {k : String}
    (h : hasAssign rest k = true) : hasAssign (l :: rest) k = true := by
  unfold hasAssign at h ⊢
  rw [List.any_cons, h, Bool.or_true]

/-- The rewriting pass is the identity on normal contents. -/
theorem updateLines_fixpoint (o : List (String × String)) (r : List String) :
    ∀ (c : List ConfLine) (seen : List String), Normal o r seen c →
      updateLines o r c seen = c := by
  intro c
  induction c with
  | nil => intro seen _; rfl
  | cons l rest ih =>
    intro seen h
    cases l with
    | other t =>
      simp only [Normal] at h
      simp only [updateLines]
      rw [ih seen h]
    | assign k v =>
      cases hl : o.lookup k with
      | some w =>
        simp only [Normal, hl] at h
        simp only [updateLines, hl]
        rw [if_neg h.1, h.2.1, ih (k :: seen) h.2.2]
      | none =>
        simp only [Normal, hl] at h
        simp only [updateLines, hl]
        rw [if_neg h.1, ih seen h.2]

/-- The output of the rewriting pass is normal. -/
theorem updateLines_normal (o : List (String × String)) (r : List String) :
    ∀ (c : List ConfLine) (seen : List String),
      Normal o r seen (updateLines o r c seen) := by
  intro c
  induction c with
  | nil => intro seen; trivial
  | cons l rest ih =>
    intro seen
    cases l with
    | other t =>
      simp only [updateLines, Normal]
      exact ih seen
    | assign k v =>
      cases hl : o.lookup k with
      | some w =>
        simp only [updateLines, hl]
        by_cases hs : k ∈ seen
        · rw [if_pos hs]
          exact ih seen
        · rw [if_neg hs]
          simp only [Normal, hl]
          exact ⟨hs, by trivial, ih (k :: seen)⟩
      | none =>
        simp only [updateLines, hl]
        by_cases hs : k ∈ r
        · rw [if_pos hs]
          exact ih seen
        · rw [if_neg hs]
          simp only [Normal, hl]
          exact ⟨hs, ih seen⟩

/-- Normality concatenates along `seenAfter`. -/
theorem Normal_append (o : List (String × String)) (r : List String) :
    ∀ (xs ys : List ConfLine) (seen : List String),
      Normal o r seen xs → Normal o r (seenAfter o xs seen) ys →
      Normal o r seen (xs ++ ys) := by
  intro xs
  induction xs with
  | nil =>
    intro ys seen _ h2
    simpa [seenAfter] using h2
  | cons l rest ih =>
    intro ys seen h1 h2
    cases l with
    | other t =>
      simp only [Normal] at h1 ⊢
      exact ih ys seen h1 (by simpa [seenAfter] using h2)
    | assign k v =>
      cases hl : o.lookup k with
      | some w =>
        simp only [Normal, hl] at h1 ⊢
        refine ⟨h1.1, h1.2.1, ih ys (k :: seen) h1.2.2 ?_⟩
        have he : seenAfter o (ConfLine.assign k v :: rest) seen
            = seenAfter o rest (k :: seen) := by
          simp [seenAfter, hl, h1.1]
        rwa [he] at h2
      | none =>
        simp only [Normal, hl] at h1 ⊢
        refine ⟨h1.1, ih ys seen h1.2 ?_⟩
        have he : seenAfter o (ConfLine.assign k v :: rest) seen
            = seenAfter o rest seen := by
          simp [seenAfter, hl]
        rwa [he] at h2

/-- Keys in `seenAfter` come from `seen` or from assignments of the
walked content. -/
theorem seenAfter_mem (o : List (String × String)) (k : String) :
    ∀ (c : List ConfLine) (seen : List String), k ∈ seenAfter o c seen →
      k ∈ seen ∨ hasAssign c k = true := by
  intro c
  induction c with
  | nil =>
    intro seen h
    exact Or.inl (by simpa [seenAfter] using h)
  | cons l rest ih =>
    intro seen h
    cases l with
    | other t =>
      rcases ih seen (by simpa [seenAfter] using h) with h' | h'
      · exact Or.inl h'
      · exact Or.inr (hasAssign_tail _ h')
    | assign kk v =>
      by_cases hk : kk = k
      · subst hk
        exact Or.inr (by simp [hasAssign])
      · cases hl : o.lookup kk with
        | some w =>
          by_cases hs : kk ∈ seen
          · rcases ih seen (by simpa [seenAfter, hl, hs] using h) with h' | h'
            · exact Or.inl h'
            · exact Or.inr (hasAssign_tail _ h')
          · rcases ih (kk :: seen) (by simpa [seenAfter, hl, hs] using h) with h' | h'
            · rcases List.mem_cons.mp h' with h'' | h''
              · exact absurd h''.symm hk
              · exact Or.inl h''
            · exact Or.inr (hasAssign_tail _ h')
        | none =>
          rcases ih seen (by simpa [seenAfter, hl] using h) with h' | h'
          · exact Or.inl h'
          · exact Or.inr (hasAssign_tail _ h')

end Config

namespace Config

/-- Computation of `hasAssign` on a cons with an unmanaged text line. -/
theorem hasAssign_cons_other (t : String) (rest : List ConfLine) (k : String) :
    hasAssign (.other t :: rest) k = hasAssign rest k := by
  simp [hasAssign]

/-- Computation of `hasAssign` on a cons with an assignment line. -/
theorem hasAssign_cons_assign (kk v : String) (rest : List ConfLine) (k : String) :
    hasAssign (.assign kk v :: rest) k = ((kk == k) || hasAssign rest k) := by
  simp [hasAssign]

/-- Keys assigned in the output of the rewriting pass were assigned in
its input. -/
theorem updateLines_hasAssign (o : List (String × String)) (r : List String)
    (k : String) :
    ∀ (c : List ConfLine) (seen : List String),
      hasAssign (updateLines o r c seen) k = true → hasAssign c k = true := by
  intro c
  induction c with
  | nil => intro seen h; exact h
  | cons l rest ih =>
    intro seen h
    cases l with
    | other t =>
      simp only [updateLines, hasAssign_cons_other] at h ⊢
      exact ih seen h
    | assign kk v =>
      rw [hasAssign_cons_assign]
      by_cases hkk : kk = k
      · simp [hkk]
      · have hb : (kk == k) = false := by simpa using hkk
        rw [hb, Bool.false_or]
        simp only [updateLines] at h
        cases hl : o.lookup kk with
        | some w =>
          rw [hl] at h
          dsimp only at h
          by_cases hs : kk ∈ seen
          · rw [if_pos hs] at h
            exact ih seen h
          · rw [if_neg hs, hasAssign_cons_assign, hb, Bool.false_or] at h
            exact ih (kk :: seen) h
        | none =>
          rw [hl] at h
          dsimp only at h
          by_cases hs : kk ∈ r
          · rw [if_pos hs] at h
            exact ih seen h
          · rw [if_neg hs, hasAssign_cons_assign, hb, Bool.false_or] at h
            exact ih seen h

/-- A managed key assigned in the input stays assigned in the output of
the rewriting pass, provided it was not already consumed. -/
theorem updateLines_keeps (o : List (String × String)) (r : List String)
    (k w : String) (hk : o.lookup k = some w) :
    ∀ (c : List ConfLine) (seen : List String), k ∉ seen →
      hasAssign c k = true → hasAssign (updateLines o r c seen) k = true := by
  intro c
  induction c with
  | nil => intro seen _ h; exact h
  | cons l rest ih =>
    intro seen hseen h
    cases l with
    | other t =>
      rw [hasAssign_cons_other] at h
      simp only [updateLines]
      rw [hasAssign_cons_other]
      exact ih seen hseen h
    | assign kk v =>
      rw [hasAssign_cons_assign, Bool.or_eq_true] at h
      by_cases hkk : kk = k
      · subst hkk
        simp only [updateLines, hk]
        rw [if_neg hseen, hasAssign_cons_assign]
        simp
      · have hb : (kk == k) = false := by simpa using hkk
        have h' : hasAssign rest k = true := by
          rcases h with h | h
          · rw [hb] at h
            exact absurd h (by simp)
          · exact h
        simp only [updateLines]
        cases hl : o.lookup kk with
        | some w' =>
          dsimp only
          by_cases hs : kk ∈ seen
          · rw [if_pos hs]
            exact ih seen hseen h'
          · rw [if_neg hs, hasAssign_cons_assign, hb, Bool.false_or]
            refine ih (kk :: seen) ?_ h'
            intro hmem
            rcases List.mem_cons.mp hmem with hh | hh
            · exact hkk hh.symm
            · exact hseen hh
        | none =>
          dsimp only
          by_cases hs : kk ∈ r
          · rw [if_pos hs]
            exact ih seen hseen h'
          · rw [if_neg hs, hasAssign_cons_assign, hb, Bool.false_or]
            exact ih seen hseen h'

/-- A successful lookup exhibits a member of the association list. -/
theorem lookup_mem {o : List (String × String)} {k w : String}
    (h : o.lookup k = some w) : (k, w) ∈ o := by
  induction o with
  | nil => exact absurd h (by simp [List.lookup])
  | cons p rest ih =>
    rw [List.lookup] at h
    cases hb : k == p.1 with
    | true =>
      rw [hb] at h
      dsimp only at h
      have hk : k = p.1 := by simpa using hb
      have hw : p.2 = w := by injection h
      have he : (k, w) = p := by rw [hk, ← hw]
      rw [he]
      exact List.mem_cons_self p rest
    | false =>
      rw [hb] at h
      dsimp only at h
      exact List.mem_cons_of_mem _ (ih h)

/-- On an association list with distinct keys, every member is found by
lookup. -/
theorem lookup_of_mem {o : List (String × String)}
    (hnodup : (o.map Prod.fst).Nodup) :
    ∀ p ∈ o, o.lookup p.1 = some p.2 := by
  induction o with
  | nil => intro p hp; exact absurd hp (List.not_mem_nil p)
  | cons q rest ih =>
    intro p hp
    rw [List.map_cons, List.nodup_cons] at hnodup
    rcases List.mem_cons.mp hp with hh | hh
    · subst hh
      rw [List.lookup]
      have hb : (p.1 == p.1) = true := by simp
      rw [hb]
    · have hne : p.1 ≠ q.1 := by
        intro he
        exact hnodup.1 (he ▸ List.mem_map_of_mem Prod.fst hh)
      have hb : (p.1 == q.1) = false := by simpa using hne
      rw [List.lookup, hb]
      dsimp only
      exact ih hnodup.2 p hh

end Config

namespace Config

/-- `hasAssign` distributes over append. -/
theorem hasAssign_append (xs ys : List ConfLine) (k : String) :
    hasAssign (xs ++ ys) k = (hasAssign xs k || hasAssign ys k) := by
  simp [hasAssign, List.any_append]

/-- An assignment member makes `hasAssign` true. -/
theorem hasAssign_of_mem {l : List ConfLine} {k v : String}
    (h : ConfLine.assign k v ∈ l) : hasAssign l k = true := by
  unfold hasAssign
  rw [List.any_eq_true]
  exact ⟨ConfLine.assign k v, h, by simp⟩

/-- A block of fresh assignments of managed keys is normal. -/
theorem Normal_assign_block (o : List (String × String)) (r : List String) :
    ∀ (opts : List (String × String)) (seen : List String),
      (∀ p ∈ opts, o.lookup p.1 = some p.2) →
      (∀ p ∈ opts, p.1 ∉ seen) →
      (opts.map Prod.fst).Nodup →
      Normal o r seen (opts.map (fun p => ConfLine.assign p.1 p.2)) := by
  intro opts
  induction opts with
  | nil => intro seen _ _ _; trivial
  | cons p rest ih =>
    intro seen hlook hseen hnodup
    rw [List.map_cons]
    have hl : o.lookup p.1 = some p.2 := hlook p (by simp)
    simp only [Normal, hl]
    refine ⟨hseen p (by simp), by trivial, ?_⟩
    rw [List.map_cons, List.nodup_cons] at hnodup
    apply ih (p.1 :: seen)
    · intro q hq
      exact hlook q (List.mem_cons_of_mem _ hq)
    · intro q hq hmem
      rcases List.mem_cons.mp hmem with hh | hh
      · exact hnodup.1 (hh ▸ List.mem_map_of_mem Prod.fst hq)
      · exact hseen q (List.mem_cons_of_mem _ hq) hh
    · exact hnodup.2

/-- When the managed keys are distinct, `updateContents` is idempotent. -/
theorem updateContents_idem (c : List ConfLine) (o : List (String × String))
    (r : List String) (hnodup : (o.map Prod.fst).Nodup) :
    updateContents (updateContents c o r) o r = updateContents c o r := by
  have hu : updateContents c o r
      = updateLines o r c []
        ++ (o.filter (fun p => !hasAssign c p.1)).map
            (fun p => ConfLine.assign p.1 p.2) := rfl
  have hn1 : Normal o r [] (updateLines o r c []) := updateLines_normal o r c []
  have hnodupf : ((o.filter (fun p => !hasAssign c p.1)).map Prod.fst).Nodup := by
    refine List.Nodup.sublist ?_ hnodup
    exact List.Sublist.map Prod.fst (List.filter_sublist o)
  have hn2 : Normal o r (seenAfter o (updateLines o r c []) [])
      ((o.filter (fun p => !hasAssign c p.1)).map
        (fun p => ConfLine.assign p.1 p.2)) := by
    apply Normal_assign_block
    · intro p hp
      exact lookup_of_mem hnodup p (List.mem_of_mem_filter hp)
    · intro p hp hmem
      rcases seenAfter_mem o p.1 (updateLines o r c []) [] hmem with h' | h'
      · exact absurd h' (List.not_mem_nil _)
      · have hin := updateLines_hasAssign o r p.1 c [] h'
        have hfalse := (List.mem_filter.mp hp).2
        rw [hin] at hfalse
        exact absurd hfalse (by simp)
    · exact hnodupf
  have hnu : Normal o r [] (updateContents c o r) := by
    rw [hu]
    exact Normal_append o r _ _ [] hn1 hn2
  have hall : ∀ p ∈ o, hasAssign (updateContents c o r) p.1 = true := by
    intro p hp
    rw [hu, hasAssign_append, Bool.or_eq_true]
    by_cases hc : hasAssign c p.1 = true
    · left
      exact updateLines_keeps o r p.1 p.2 (lookup_of_mem hnodup p hp) c []
        (List.not_mem_nil _) hc
    · right
      have hpf : p ∈ o.filter (fun p => !hasAssign c p.1) := by
        refine List.mem_filter.mpr ⟨hp, ?_⟩
        simp only [Bool.not_eq_true] at hc
        rw [hc]
        rfl
      exact hasAssign_of_mem
        (List.mem_map_of_mem (fun p => ConfLine.assign p.1 p.2) hpf)
  have hfix : updateLines o r (updateContents c o r) [] = updateContents c o r :=
    updateLines_fixpoint o r _ [] hnu
  have hempty : o.filter (fun p => !hasAssign (updateContents c o r) p.1) = [] := by
    rw [List.filter_eq_nil_iff]
    intro p hp
    rw [hall p hp]
    simp
  show updateLines o r (updateContents c o r) []
      ++ (o.filter (fun p => !hasAssign (updateContents c o r) p.1)).map
          (fun p => ConfLine.assign p.1 p.2) = updateContents c o r
  rw [hfix, hempty, List.map_nil, List.append_nil]

end Config

namespace Config

/-- An absent key is a non-member. -/
theorem lookup_none_not_mem : ∀ {o : List (String × String)} {k v : String},
    o.lookup k = none → (k, v) ∉ o := by
  intro o
  induction o with
  | nil =>
    intro k v _ hv
    exact absurd hv (List.not_mem_nil _)
  | cons p rest ih =>
    intro k v h hv
    rw [List.lookup] at h
    cases hb : (k == p.1) with
    | true =>
      rw [hb] at h
      exact Option.noConfusion h
    | false =>
      rw [hb] at h
      dsimp only at h
      rcases List.mem_cons.mp hv with hh | hh
      · have hp1 : p.1 = k := by rw [← hh]
        rw [hp1] at hb
        simp at hb
      · exact ih h hh

/-- An assignment block of pairs only assigns keys of the pair list. -/
theorem hasAssign_map_assign {opts : List (String × String)} {k : String}
    (h : hasAssign (opts.map (fun p => ConfLine.assign p.1 p.2)) k = true) :
    ∃ v, (k, v) ∈ opts := by
  unfold hasAssign at h
  rw [List.any_eq_true] at h
  rcases h with ⟨l, hl, hpred⟩
  rcases List.mem_map.mp hl with ⟨p, hp, hpe⟩
  subst hpe
  have hpk : p.1 = k := by simpa using hpred
  refine ⟨p.2, ?_⟩
  rw [← hpk]
  exact hp

/-- The rewriting pass emits no assignment of a removable unmanaged
key. -/
theorem updateLines_no_removed (o : List (String × String)) (r : List String)
    (k : String) (hk : o.lookup k = none) (hr : k ∈ r) :
    ∀ (c : List ConfLine) (seen : List String),
      hasAssign (updateLines o r c seen) k = false := by
  intro c
  induction c with
  | nil => intro seen; rfl
  | cons l rest ih =>
    intro seen
    cases l with
    | other t =>
      simp only [updateLines, hasAssign_cons_other]
      exact ih seen
    | assign kk v =>
      simp only [updateLines]
      by_cases hkk : kk = k
      · subst hkk
        rw [hk]
        dsimp only
        rw [if_pos hr]
        exact ih seen
      · have hb : (kk == k) = false := by simpa using hkk
        cases hl : o.lookup kk with
        | some w =>
          dsimp only
          by_cases hs : kk ∈ seen
          · rw [if_pos hs]
            exact ih seen
          · rw [if_neg hs, hasAssign_cons_assign, hb, Bool.false_or]
            exact ih (kk :: seen)
        | none =>
          dsimp only
          by_cases hs : kk ∈ r
          · rw [if_pos hs]
            exact ih seen
          · rw [if_neg hs, hasAssign_cons_assign, hb, Bool.false_or]
            exact ih seen

/-- Any managed key ends up assigned in the updated content. -/
theorem updateContents_hasAssign_of_lookup (c : List ConfLine)
    (o : List (String × String)) (r : List String) {k w : String}
    (hk : o.lookup k = some w) :
    hasAssign (updateContents c o r) k = true := by
  rw [show updateContents c o r
      = updateLines o r c []
        ++ (o.filter (fun p => !hasAssign c p.1)).map
            (fun p => ConfLine.assign p.1 p.2) from rfl]
  rw [hasAssign_append, Bool.or_eq_true]
  by_cases hc : hasAssign c k = true
  · left
    exact updateLines_keeps o r k w hk c [] (List.not_mem_nil _) hc
  · right
    have hpf : (k, w) ∈ o.filter (fun p => !hasAssign c p.1) := by
      refine List.mem_filter.mpr ⟨lookup_mem hk, ?_⟩
      simp only [Bool.not_eq_true] at hc
      rw [hc]
      rfl
    exact hasAssign_of_mem
      (List.mem_map_of_mem (fun p => ConfLine.assign p.1 p.2) hpf)

/-- A removable key absent from the managed options is never assigned
in the updated content. -/
theorem updateContents_no_assign (c : List ConfLine)
    (o : List (String × String)) (r : List String) {k : String}
    (hk : o.lookup k = none) (hr : k ∈ r) :
    hasAssign (updateContents c o r) k = false := by
  rw [show updateContents c o r
      = updateLines o r c []
        ++ (o.filter (fun p => !hasAssign c p.1)).map
            (fun p => ConfLine.assign p.1 p.2) from rfl]
  rw [hasAssign_append, updateLines_no_removed o r k hk hr c [], Bool.false_or]
  cases happ : hasAssign ((o.filter (fun p => !hasAssign c p.1)).map
      (fun p => ConfLine.assign p.1 p.2)) k with
  | false => rfl
  | true =>
    rcases hasAssign_map_assign happ with ⟨v, hv⟩
    exact absurd (List.mem_of_mem_filter hv) (lookup_none_not_mem hk)

end Config

namespace Config

/-- The legacy option keys are distinct. -/
theorem recoveryOptions_keys_nodup (pci sn : String) :
    ((recoveryOptions pci sn).map Prod.fst).Nodup := by
  unfold recoveryOptions
  by_cases h1 : sn ≠ ""
  · rw [if_pos h1]
    by_cases h2 : pci ≠ ""
    · rw [if_pos h2]; simp
    · rw [if_neg h2]; simp
  · rw [if_neg h1]
    by_cases h2 : pci ≠ ""
    · rw [if_pos h2]; simp
    · rw [if_neg h2]; simp

/-- The modern option keys are distinct. -/
theorem overrideOptions_keys_nodup (pci sn : String) :
    ((overrideOptions pci sn).map Prod.fst).Nodup := by
  unfold overrideOptions
  by_cases h2 : pci ≠ ""
  · rw [if_pos h2]; simp
  · rw [if_neg h2]; simp

/-- The modern options always carry `primary_slot_name`. -/
theorem overrideOptions_lookup_slot (pci sn : String) :
    (overrideOptions pci sn).lookup "primary_slot_name" = some sn := rfl

/-- The legacy options carry `primary_slot_name` when non-empty. -/
theorem recoveryOptions_lookup_slot (pci sn : String) (h1 : sn ≠ "") :
    (recoveryOptions pci sn).lookup "primary_slot_name" = some sn := by
  unfold recoveryOptions
  rw [if_pos h1]
  rfl

/-- The legacy options omit `primary_slot_name` when it is empty. -/
theorem recoveryOptions_lookup_slot_empty (pci : String) :
    (recoveryOptions pci "").lookup "primary_slot_name" = none := by
  unfold recoveryOptions
  rw [if_neg (by simp)]
  by_cases h2 : pci ≠ ""
  · rw [if_pos h2]; rfl
  · rw [if_neg h2]; rfl

end Config

open Config in
/-- C4: the replica-configuration writer is idempotent: a second call
with identical inputs reports changed = false and leaves the on-disk
content byte-identical to the first call's result; and changed is false
whenever the computed file content equals what is already on disk. -/
theorem configure_replica_idempotent (major : Nat) (dd : DataDir)
    (primaryConnInfo slotName : String) :
    ((UpdateReplicaConfiguration major
        (UpdateReplicaConfiguration major dd primaryConnInfo slotName).2
        primaryConnInfo slotName).1 = false
      ∧ (UpdateReplicaConfiguration major
          (UpdateReplicaConfiguration major dd primaryConnInfo slotName).2
          primaryConnInfo slotName).2
        = (UpdateReplicaConfiguration major dd primaryConnInfo slotName).2)
    ∧ (∀ (current : List ConfLine) (options : List (String × String))
          (removed : List String),
        updateContents current options removed = current →
        (UpdatePostgresConfigurationFile current options removed).1 = false) := by
  constructor
  · by_cases hv : major < 12
    · have hidem := updateContents_idem dd.recoveryConf
        (recoveryOptions primaryConnInfo slotName)
        ["primary_slot_name", "primary_conninfo"]
        (recoveryOptions_keys_nodup primaryConnInfo slotName)
      constructor
      · simp [UpdateReplicaConfiguration, hv, configureRecoveryConfFile,
          UpdatePostgresConfigurationFile, hidem]
      · simp [UpdateReplicaConfiguration, hv, configureRecoveryConfFile,
          UpdatePostgresConfigurationFile, hidem]
    · have hidem := updateContents_idem dd.overrideConf
        (overrideOptions primaryConnInfo slotName) []
        (overrideOptions_keys_nodup primaryConnInfo slotName)
      constructor
      · simp [UpdateReplicaConfiguration, hv, configurePostgresOverrideConfFile,
          createStandbySignal, UpdatePostgresConfigurationFile, hidem]
      · simp [UpdateReplicaConfiguration, hv, configurePostgresOverrideConfFile,
          createStandbySignal, UpdatePostgresConfigurationFile, hidem]
  · intro current options removed heq
    simp [UpdatePostgresConfigurationFile, heq]

open Config in
/-- C9: the modern-generation writer always includes the
`primary_slot_name` key in the override file, even for the empty slot
name, while the legacy-generation writer's recovery file carries a
`primary_slot_name` assignment exactly when the slot name is
non-empty. -/
theorem primary_slot_name_generation_difference (dd : DataDir)
    (primaryConnInfo slotName : String) :
    hasAssign
        (configurePostgresOverrideConfFile dd primaryConnInfo slotName).2.overrideConf
        "primary_slot_name" = true
    ∧ (hasAssign
        (configureRecoveryConfFile dd primaryConnInfo slotName).2.recoveryConf
        "primary_slot_name" = true ↔ slotName ≠ "") := by
  constructor
  · exact updateContents_hasAssign_of_lookup dd.overrideConf
      (overrideOptions primaryConnInfo slotName) []
      (overrideOptions_lookup_slot primaryConnInfo slotName)
  · constructor
    · intro h hsn
      subst hsn
      have habs := updateContents_no_assign dd.recoveryConf
        (recoveryOptions primaryConnInfo "")
        ["primary_slot_name", "primary_conninfo"]
        (recoveryOptions_lookup_slot_empty primaryConnInfo)
        (by simp)
      have h' : hasAssign (updateContents dd.recoveryConf
          (recoveryOptions primaryConnInfo "")
          ["primary_slot_name", "primary_conninfo"]) "primary_slot_name" = true := h
      rw [habs] at h'
      exact Bool.noConfusion h'
    · intro hsn
      exact updateContents_hasAssign_of_lookup dd.recoveryConf
        (recoveryOptions primaryConnInfo slotName)
        ["primary_slot_name", "primary_conninfo"]
        (recoveryOptions_lookup_slot primaryConnInfo slotName hsn)

open Config in
/-- Witness for C4: a concrete legacy double call reports no change the
second time, and a content already equal to its update reports no
change. -/
theorem configure_replica_idempotent_witness :
    (UpdateReplicaConfiguration 11
        (UpdateReplicaConfiguration 11 ⟨[], [], false⟩ "host=p-1" "myslot").2
        "host=p-1" "myslot").1 = false
    ∧ (UpdatePostgresConfigurationFile
        (updateContents [] (overrideOptions "host=p-1" "") [])
        (overrideOptions "host=p-1" "") []).1 = false :=
  ⟨(configure_replica_idempotent 11 ⟨[], [], false⟩ "host=p-1" "myslot").1.1,
   (configure_replica_idempotent 12 ⟨[], [], false⟩ "host=p-1" "").2
      (updateContents [] (overrideOptions "host=p-1" "") [])
      (overrideOptions "host=p-1" "") []
      (updateContents_idem [] (overrideOptions "host=p-1" "") []
        (overrideOptions_keys_nodup "host=p-1" ""))⟩

open Config in
/-- Witness for C9: with an empty slot name the modern writer still
produces a `primary_slot_name` assignment. -/
theorem primary_slot_name_generation_difference_witness :
    hasAssign
        (configurePostgresOverrideConfFile ⟨[], [], false⟩ "host=p-1" "").2.overrideConf
        "primary_slot_name" = true :=
  (primary_slot_name_generation_difference ⟨[], [], false⟩ "host=p-1" "").1

open Lifecycle in
/-- C5: from Running, context cancellation runs a smart-then-fast
shutdown bounded by the full stop delay and terminates; an OS signal
runs it bounded by half the stop delay and terminates; a restart
command runs it bounded by the switchover delay and re-enters Starting;
a do-not-restart command runs a fast-then-immediate shutdown and exits
the supervisor. -/
theorem supervisor_shutdown_dispatch (inst : Probes.Instance) :
    lifecycleStep inst .contextCancelled
      = (some (.smartFast inst.maxStopDelay), .exitSupervisor none)
    ∧ lifecycleStep inst .signalReceived
      = (some (.smartFast (inst.maxStopDelay / 2)), .exitSupervisor none)
    ∧ lifecycleStep inst (.commandReceived .restartSmartFast)
      = (some (.smartFast inst.maxSwitchoverDelay), .reenterStarting)
    ∧ lifecycleStep inst (.commandReceived .shutDownFastImmediate)
      = (some (.fastImmediate inst.maxStopDelay), .exitSupervisor none) :=
  ⟨rfl, rfl, rfl, rfl⟩

open Hba in
/-- C6: contrary to the claim, a failure of the host-based-access rules
generation step is not surfaced: `RefreshPGHBA` returns changed = false
with no error, silently discarding the generation error; an
installation (write) failure is surfaced wrapped. -/
theorem refresh_pghba_swallows_generation_error :
    RefreshPGHBA (.error "generation failed") (fun _ => .ok true) = (false, none)
    ∧ (∀ e : PgError, RefreshPGHBA (.ok "hba rules") (fun _ => .error e)
        = (false, some ("installing postgresql HBA rules: " ++ e))) :=
  ⟨rfl, fun _ => rfl⟩
